import Mathlib

/-!
Verification development for the Ookla connectivity-data preparation pipeline
(`src/prepare_tableau.py`, `src/config.py`).

The Python functions are shallowly embedded as Lean definitions:

* `decodeQuadkeyToLatLon` embeds `TableauDataPreparer._decode_quadkey_to_latlon`.
  The integer/rational part of the computation (tile coordinates, pixel
  coordinates, normalized map coordinates) is kept computable over `ℚ`;
  the final trigonometric projection to latitude/longitude is a real-valued
  layer on top.  Python's `int(c)` on a single character succeeds exactly on
  the decimal digits and raises `ValueError` otherwise; this is modelled by
  `Option`, with `none` standing for the raised `ValueError`.
* `aggregateData` embeds `TableauDataPreparer._aggregate_data` on the fixed
  input schema of the Ookla tile tables (the default Ookla columns plus
  `year`, `quarter`, `data_type`, without pre-existing latitude/longitude
  columns, so the quadkey-decoding branch always runs).  Pandas `groupby`
  with `sort=True` is modelled by sorting the deduplicated group keys.
  The sample standard deviation columns are represented by the sample
  variance (the square of the standard deviation, `ddof=1`), which keeps the
  value rational; pandas' `NaN` std of a single-row group is `none`.
* `createComparison` embeds `TableauDataPreparer._create_comparison_file`
  up to the point where the comparison table is written out.  Pandas float
  columns that can hold `NaN`/`±inf` are modelled by `PFloat`; missing
  (`NaN`) cells of plain value columns are modelled by `Option ℚ`.
* `excelSheets` embeds the sheet-splitting loop of
  `TableauDataPreparer._create_excel_file` with the configured row limit
  `TABLEAU_CONFIG['excel_row_limit'] = 900000`.
-/

attribute [local semireducible] Rat.add Rat.mul Rat.inv Rat.sub Rat.ofScientific

namespace OoklaPrep

/-! ### Quadkey decoder (`_decode_quadkey_to_latlon`) -/

/-- Python `int(c)` for a single character `c`: the numeric value for a
decimal digit, `none` (a raised `ValueError`) otherwise.  Python would also
accept non-ASCII Unicode decimal digits; quadkey data is ASCII, so the
model covers the ASCII digits. -/
def charDigit? (c : Char) : Option ℕ :=
  if '0' ≤ c ∧ c ≤ '9' then some (c.toNat - 48) else none

/-- Digit-by-digit conversion of the character list; `none` as soon as
`int(...)` raises on some character. -/
def charsDigits? : List Char → Option (List ℕ)
  | [] => some []
  | c :: cs =>
    match charDigit? c, charsDigits? cs with
    | some d, some ds => some (d :: ds)
    | _, _ => none

/-- The digit list of a quadkey string; `none` as soon as `int(...)` raises. -/
def quadkeyDigits? (s : String) : Option (List ℕ) :=
  charsDigits? s.data

/-- The digit-decoding loop of `_decode_quadkey_to_latlon`: for position `i`
the mask `1 << (L - 1 - i)` is OR-ed into `tile_x` when the digit is `1`,
into `tile_y` when it is `2`, and into both when it is `3`; any other digit
falls through the `if`/`elif` chain and contributes nothing. -/
def tileOfDigits (ds : List ℕ) : ℕ × ℕ :=
  (List.range ds.length).foldl
    (fun t i =>
      let mask := 2 ^ (ds.length - 1 - i)
      let digit := ds.getD i 0
      if digit = 1 then (t.1 ||| mask, t.2)
      else if digit = 2 then (t.1, t.2 ||| mask)
      else if digit = 3 then (t.1 ||| mask, t.2 ||| mask)
      else t)
    (0, 0)

/-- The map canvas size `256 << level_of_detail`. -/
def mapSize (L : ℕ) : ℕ := 256 * 2 ^ L

/-- Pixel-center and normalized map coordinates `(x, y)` of the code:
`pixel = tile*256 + 128`, `x = pixel_x/map_size - 0.5`, `y = 0.5 - pixel_y/map_size`. -/
def normXY (ds : List ℕ) : ℚ × ℚ :=
  let t := tileOfDigits ds
  let px : ℚ := t.1 * 256 + 128
  let py : ℚ := t.2 * 256 + 128
  (px / (mapSize ds.length : ℚ) - 1/2, 1/2 - py / (mapSize ds.length : ℚ))

/-- The computable core of the decoder: digit parsing plus the rational
normalized coordinates. -/
def decodeXY (s : String) : Option (ℚ × ℚ) :=
  (quadkeyDigits? s).map normXY

/-- The real-valued projection applied to `(x, y)`:
`longitude = 360 * x`, `latitude = 90 - 360 * atan(exp(-y * 2 * pi)) / pi`,
returned as `(latitude, longitude)` exactly like the Python function. -/
noncomputable def latlonOfXY (p : ℚ × ℚ) : ℝ × ℝ :=
  (90 - 360 * Real.arctan (Real.exp (-(p.2 : ℝ) * (2 * Real.pi))) / Real.pi,
   360 * (p.1 : ℝ))

/-- Embedding of `TableauDataPreparer._decode_quadkey_to_latlon`. -/
noncomputable def decodeQuadkeyToLatLon (s : String) : Option (ℝ × ℝ) :=
  (decodeXY s).map latlonOfXY

/-! Reference algorithm as the specification states it (spec §4.1 / claim C1):
tile accumulators built by OR-ing the bit mask for digits `{1,3}` (X) and
`{2,3}` (Y), then the inverse Web-Mercator projection
`latitude = 90 - (360/pi) * atan(exp(-y * 2 * pi))`. -/

/-- The digit values of a quadkey string (meaningful when every character is
a decimal digit). -/
def specDigits (s : String) : List ℕ :=
  s.data.map (fun c => c.toNat - 48)

/-- Reference tile-X accumulator: OR the mask `1 << (L-1-i)` whenever the
digit at position `i` is 1 or 3. -/
def specTileX (ds : List ℕ) : ℕ :=
  (List.range ds.length).foldl
    (fun x i => if ds.getD i 0 = 1 ∨ ds.getD i 0 = 3 then x ||| 2 ^ (ds.length - 1 - i) else x)
    0

/-- Reference tile-Y accumulator: OR the mask `1 << (L-1-i)` whenever the
digit at position `i` is 2 or 3. -/
def specTileY (ds : List ℕ) : ℕ :=
  (List.range ds.length).foldl
    (fun y i => if ds.getD i 0 = 2 ∨ ds.getD i 0 = 3 then y ||| 2 ^ (ds.length - 1 - i) else y)
    0

/-- The reference `(latitude, longitude)` of the spec: pixel center,
`map_size = 256 << L`, `x = pixel_x/map_size - 0.5`, `y = 0.5 - pixel_y/map_size`,
`longitude = 360 * x`, `latitude = 90 - (360/pi) * atan(exp(-y * 2 * pi))`. -/
noncomputable def specLatLon (s : String) : ℝ × ℝ :=
  let ds := specDigits s
  let L := ds.length
  let pixelX : ℚ := specTileX ds * 256 + 128
  let pixelY : ℚ := specTileY ds * 256 + 128
  let x : ℚ := pixelX / (mapSize L : ℚ) - 1/2
  let y : ℚ := 1/2 - pixelY / (mapSize L : ℚ)
  (90 - (360 / Real.pi) * Real.arctan (Real.exp (-(y : ℝ) * (2 * Real.pi))),
   360 * (x : ℝ))

/-! Helper lemmas for the decoder. -/

lemma foldl_pair_split (l : List ℕ) (f : ℕ × ℕ → ℕ → ℕ × ℕ)
    (g h : ℕ → ℕ → ℕ) (hf : ∀ t i, f t i = (g t.1 i, h t.2 i)) :
    ∀ t : ℕ × ℕ, l.foldl f t = (l.foldl g t.1, l.foldl h t.2) := by
  induction l with
  | nil => intro t; rfl
  | cons a l ih =>
    intro t
    simp only [List.foldl_cons, hf]
    exact ih _

lemma tileOfDigits_eq_spec (ds : List ℕ) :
    tileOfDigits ds = (specTileX ds, specTileY ds) := by
  unfold tileOfDigits specTileX specTileY
  refine foldl_pair_split _ _ _ _ (fun t i => ?_) (0, 0)
  simp only
  by_cases h1 : ds.getD i 0 = 1
  · simp [List.getD] at h1 ⊢
    simp [h1]
  · by_cases h2 : ds.getD i 0 = 2
    · simp [List.getD] at h1 h2 ⊢
      simp [h1, h2]
    · by_cases h3 : ds.getD i 0 = 3
      · simp [List.getD] at h1 h2 h3 ⊢
        simp [h1, h2, h3]
      · simp [List.getD] at h1 h2 h3 ⊢
        simp [h1, h2, h3]

lemma charsDigits?_of_digits {l : List Char}
    (h : ∀ c ∈ l, '0' ≤ c ∧ c ≤ '9') :
    charsDigits? l = some (l.map (fun c => c.toNat - 48)) := by
  induction l with
  | nil => rfl
  | cons a l ih =>
    have ha := h a (List.mem_cons_self a l)
    have hrest := ih (fun c hc => h c (List.mem_cons_of_mem a hc))
    simp [charsDigits?, charDigit?, ha, hrest]

lemma charsDigits?_eq_none_iff (l : List Char) :
    charsDigits? l = none ↔ ∃ c ∈ l, ¬('0' ≤ c ∧ c ≤ '9') := by
  induction l with
  | nil => simp [charsDigits?]
  | cons a l ih =>
    by_cases ha : '0' ≤ a ∧ a ≤ '9'
    · rcases h' : charsDigits? l with _ | v
      · rcases ih.mp h' with ⟨c, hc, hcbad⟩
        have hl : charsDigits? (a :: l) = none := by
          simp [charsDigits?, charDigit?, ha, h']
        simp only [hl, true_iff]
        exact ⟨c, List.mem_cons_of_mem a hc, hcbad⟩
      · have hnotl : ¬∃ c ∈ l, ¬('0' ≤ c ∧ c ≤ '9') := by
          rw [← ih, h']; simp
        simp only [charsDigits?, charDigit?, if_pos ha, h']
        constructor
        · intro hc; exact Option.noConfusion hc
        · rintro ⟨c, hc, hcbad⟩
          rcases List.mem_cons.mp hc with rfl | hc'
          · exact absurd ha hcbad
          · exact absurd ⟨c, hc', hcbad⟩ hnotl
    · constructor
      · intro _; exact ⟨a, List.mem_cons_self a l, ha⟩
      · intro _; simp [charsDigits?, charDigit?, ha]

/-- C1. For every quadkey over the alphabet `{0,1,2,3}` of length at least 1,
the decoder returns exactly the latitude/longitude of the reference
algorithm: masks `1 << (L-1-i)` OR-ed into tile-X for digits 1,3 and tile-Y
for digits 2,3, pixel center `tile*256 + 128`, `map_size = 256 << L`,
`x = pixel_x/map_size - 0.5`, `y = 0.5 - pixel_y/map_size`,
`longitude = 360*x`, `latitude = 90 - (360/pi) * atan(exp(-y*2*pi))`. -/
theorem decode_quadkey_matches_reference (s : String)
    (hchars : ∀ c ∈ s.data, c = '0' ∨ c = '1' ∨ c = '2' ∨ c = '3')
    (_hlen : 1 ≤ s.length) :
    decodeQuadkeyToLatLon s = some (specLatLon s) := by
  have hdig : ∀ c ∈ s.data, '0' ≤ c ∧ c ≤ '9' := by
    intro c hc
    rcases hchars c hc with rfl | rfl | rfl | rfl <;> exact ⟨by decide, by decide⟩
  have hparse : quadkeyDigits? s = some (specDigits s) :=
    charsDigits?_of_digits hdig
  unfold decodeQuadkeyToLatLon decodeXY
  rw [hparse]
  simp only [Option.map_some', Option.some.injEq]
  unfold latlonOfXY normXY specLatLon
  rw [tileOfDigits_eq_spec]
  have hpi := Real.pi_ne_zero
  refine Prod.ext ?_ rfl
  simp only
  field_simp

/-- Witness for C1 at the concrete quadkey "3". -/
theorem decode_quadkey_matches_reference_witness :
    decodeQuadkeyToLatLon "3" = some (specLatLon "3") :=
  decode_quadkey_matches_reference "3" (by decide) (by decide)

/-- C2 counterexample: the decoder does not fail on the digit '4' (which is
outside `{0,1,2,3}`); it silently treats it like '0' and returns that tile's
coordinate. -/
theorem decode_quadkey_accepts_digit_four :
    decodeQuadkeyToLatLon "4" = decodeQuadkeyToLatLon "0" ∧
      (decodeQuadkeyToLatLon "4").isSome = true ∧
      ¬('4' = '0' ∨ '4' = '1' ∨ '4' = '2' ∨ '4' = '3') := by
  refine ⟨?_, ?_, by decide⟩
  · unfold decodeQuadkeyToLatLon
    have h : decodeXY "4" = decodeXY "0" := by decide
    rw [h]
  · have h : decodeXY "4" = some (normXY [4]) := by decide
    unfold decodeQuadkeyToLatLon
    rw [h]
    rfl

/-- C2 as amended: the decoder fails (with a `ValueError` from `int(...)`,
modelled by `none`) exactly when the input contains a character that is not
a decimal digit; digits `4`-`9` are accepted and treated as contributing no
bits, and the empty quadkey is accepted and decodes to `(0, 0)`.  No
`InvalidQuadkey` error exists in the code. -/
theorem decode_quadkey_error_behavior :
    (∀ s : String, decodeQuadkeyToLatLon s = none ↔ ∃ c ∈ s.data, ¬('0' ≤ c ∧ c ≤ '9')) ∧
      decodeQuadkeyToLatLon "" = some (0, 0) := by
  constructor
  · intro s
    unfold decodeQuadkeyToLatLon decodeXY
    rw [Option.map_eq_none', Option.map_eq_none']
    exact charsDigits?_eq_none_iff s.data
  · have hxy : decodeXY "" = some (0, 0) := by decide
    unfold decodeQuadkeyToLatLon
    rw [hxy]
    unfold latlonOfXY
    simp only [Option.map_some', Option.some.injEq, Prod.mk.injEq]
    constructor
    · push_cast
      rw [neg_zero, zero_mul, Real.exp_zero, Real.arctan_one]
      have hpi := Real.pi_ne_zero
      field_simp
      ring
    · push_cast
      ring

/-- Witness for the amended C2 at the concrete input "a": a letter makes the
decoder fail. -/
theorem decode_quadkey_error_behavior_witness :
    decodeQuadkeyToLatLon "a" = none :=
  (decode_quadkey_error_behavior.1 "a").mpr ⟨'a', by decide, by decide⟩

/-! ### Pandas float-column values

A pandas float64 cell holds a finite value, `+inf`, `-inf`, or `NaN` (which
doubles as the missing/null marker).  Finite values are modelled exactly by
`ℚ`; the arithmetic below follows IEEE-754 as numpy implements it, which is
what the percent-change expressions of `_create_comparison_file` run on. -/

inductive PFloat where
  | fin (q : ℚ)
  | pinf
  | ninf
  | nan
deriving DecidableEq

/-- IEEE subtraction on pandas cells. -/
def PFloat.sub : PFloat → PFloat → PFloat
  | nan, _ => nan
  | _, nan => nan
  | fin a, fin b => fin (a - b)
  | fin _, pinf => ninf
  | fin _, ninf => pinf
  | pinf, fin _ => pinf
  | ninf, fin _ => ninf
  | pinf, pinf => nan
  | pinf, ninf => pinf
  | ninf, pinf => ninf
  | ninf, ninf => nan

/-- IEEE division on pandas cells: a nonzero finite value divided by zero is
a signed infinity, `0/0` is `NaN` (numpy emits a warning but no error). -/
def PFloat.div : PFloat → PFloat → PFloat
  | nan, _ => nan
  | _, nan => nan
  | fin a, fin b =>
    if b = 0 then (if a = 0 then nan else if 0 < a then pinf else ninf)
    else fin (a / b)
  | fin _, pinf => fin 0
  | fin _, ninf => fin 0
  | pinf, fin b => if 0 ≤ b then pinf else ninf
  | ninf, fin b => if 0 ≤ b then ninf else pinf
  | pinf, pinf => nan
  | pinf, ninf => nan
  | ninf, pinf => nan
  | ninf, ninf => nan

/-- IEEE multiplication on pandas cells. -/
def PFloat.mul : PFloat → PFloat → PFloat
  | nan, _ => nan
  | _, nan => nan
  | fin a, fin b => fin (a * b)
  | fin a, pinf => if a = 0 then nan else if 0 < a then pinf else ninf
  | fin a, ninf => if a = 0 then nan else if 0 < a then ninf else pinf
  | pinf, fin b => if b = 0 then nan else if 0 < b then pinf else ninf
  | ninf, fin b => if b = 0 then nan else if 0 < b then ninf else pinf
  | pinf, pinf => pinf
  | pinf, ninf => ninf
  | ninf, pinf => ninf
  | ninf, ninf => pinf

/-- A possibly-missing plain value column cell viewed as a float cell. -/
def toPF : Option ℚ → PFloat
  | none => PFloat.nan
  | some q => PFloat.fin q

/-- The percent-change expression `(value - base) / base * 100` as pandas
evaluates it on float cells; used both for the baseline percent change and
for the quarter-over-quarter change. -/
def pctPF (v b : Option ℚ) : PFloat :=
  (((toPF v).sub (toPF b)).div (toPF b)).mul (PFloat.fin 100)

/-! ### Comparison input rows and orderings -/

/-- A row of the aggregated table as `_create_comparison_file` reads it:
the group key columns it uses plus the mean speed columns. -/
structure CRow where
  quadkey : String
  year : ℤ
  quarter : ℤ
  avg_d_kbps_mean : Option ℚ
  avg_u_kbps_mean : Option ℚ
deriving DecidableEq

/-- Strict lexicographic comparison of character lists by code point, the
order pandas uses to sort string columns. -/
def chListLt : List Char → List Char → Bool
  | [], [] => false
  | [], _ :: _ => true
  | _ :: _, [] => false
  | a :: as, b :: bs =>
    if a.toNat < b.toNat then true
    else if b.toNat < a.toNat then false
    else chListLt as bs

/-- Strict string comparison by code points. -/
def strLtB (a b : String) : Bool := chListLt a.data b.data

/-- Sort key of `df.sort_values(['year', 'quarter'])`. -/
def yqLe (a b : CRow) : Prop :=
  a.year < b.year ∨ (a.year = b.year ∧ a.quarter ≤ b.quarter)

instance : DecidableRel yqLe := fun a b =>
  inferInstanceAs (Decidable (_ ∨ _))

lemma chListLt_irrefl : ∀ l, chListLt l l = false := by
  intro l
  induction l with
  | nil => rfl
  | cons a as ih => simp [chListLt, ih]

lemma chListLt_trans : ∀ a b c, chListLt a b = true → chListLt b c = true →
    chListLt a c = true := by
  intro a
  induction a with
  | nil =>
    intro b c hab hbc
    cases b with
    | nil => exact absurd hab (by simp [chListLt])
    | cons b bs =>
      cases c with
      | nil => exact absurd hbc (by simp [chListLt])
      | cons c cs => simp [chListLt]
  | cons x xs ih =>
    intro b c hab hbc
    cases b with
    | nil => exact absurd hab (by simp [chListLt])
    | cons y ys =>
      cases c with
      | nil => exact absurd hbc (by simp [chListLt])
      | cons z zs =>
        simp only [chListLt] at hab hbc ⊢
        by_cases hxy : x.toNat < y.toNat
        · by_cases hyz : y.toNat < z.toNat
          · rw [if_pos (show x.toNat < z.toNat by omega)]
          · by_cases hzy : z.toNat < y.toNat
            · rw [if_neg hyz, if_pos hzy] at hbc
              exact absurd hbc (by simp)
            · rw [if_pos (show x.toNat < z.toNat by omega)]
        · by_cases hyx : y.toNat < x.toNat
          · rw [if_neg hxy, if_pos hyx] at hab
            exact absurd hab (by simp)
          · by_cases hyz : y.toNat < z.toNat
            · rw [if_pos (show x.toNat < z.toNat by omega)]
            · by_cases hzy : z.toNat < y.toNat
              · rw [if_neg hyz, if_pos hzy] at hbc
                exact absurd hbc (by simp)
              · rw [if_neg hxy, if_neg hyx] at hab
                rw [if_neg hyz, if_neg hzy] at hbc
                rw [if_neg (show ¬x.toNat < z.toNat by omega),
                  if_neg (show ¬z.toNat < x.toNat by omega)]
                exact ih ys zs hab hbc

lemma chListLt_asymm_eq : ∀ a b, chListLt a b = false → chListLt b a = false → a = b := by
  intro a
  induction a with
  | nil =>
    intro b hab _
    cases b with
    | nil => rfl
    | cons y ys => exact absurd hab (by simp [chListLt])
  | cons x xs ih =>
    intro b hab hba
    cases b with
    | nil => exact absurd hba (by simp [chListLt])
    | cons y ys =>
      simp only [chListLt] at hab hba
      by_cases hxy : x.toNat < y.toNat
      · simp [hxy] at hab
      · by_cases hyx : y.toNat < x.toNat
        · simp [hyx] at hba
        · have heq : x.toNat = y.toNat := by omega
          have hchar : x = y := Char.eq_of_val_eq (UInt32.ext heq)
          subst hchar
          simp [hxy, hyx] at hab hba
          rw [ih ys hab hba]

lemma stringDataEq {a b : String} (h : a.data = b.data) : a = b := by
  cases a with
  | mk d1 =>
    cases b with
    | mk d2 => exact congrArg String.mk (by simpa using h)

/-- A row of the merged frame after the baseline left-join and the two
percent-change column assignments (and the `time_period` column). -/
structure MRow where
  quadkey : String
  year : ℤ
  quarter : ℤ
  avg_d_kbps_mean : Option ℚ
  avg_u_kbps_mean : Option ℚ
  baseline_d_kbps : Option ℚ
  baseline_u_kbps : Option ℚ
  d_kbps_pct_change : PFloat
  u_kbps_pct_change : PFloat
  time_period : ℚ
deriving DecidableEq

/-- A row of the final comparison table (after the quarter-over-quarter
columns, the year-transition flag and the cumulative-change copies; the
temporary `prev_*` columns are dropped by the code and hence not fields). -/
structure CompRow where
  quadkey : String
  year : ℤ
  quarter : ℤ
  avg_d_kbps_mean : Option ℚ
  avg_u_kbps_mean : Option ℚ
  baseline_d_kbps : Option ℚ
  baseline_u_kbps : Option ℚ
  d_kbps_pct_change : PFloat
  u_kbps_pct_change : PFloat
  time_period : ℚ
  d_kbps_qoq_change : PFloat
  u_kbps_qoq_change : PFloat
  is_year_transition : Bool
  d_kbps_cumulative_change : PFloat
  u_kbps_cumulative_change : PFloat
deriving DecidableEq

/-- Sort key of `comparison.sort_values(['quadkey', 'year', 'quarter'])`. -/
def mqLe (a b : MRow) : Prop :=
  strLtB a.quadkey b.quadkey = true ∨
    (a.quadkey = b.quadkey ∧
      (a.year < b.year ∨ (a.year = b.year ∧ a.quarter ≤ b.quarter)))

instance : DecidableRel mqLe := fun a b =>
  inferInstanceAs (Decidable (_ ∨ _))

/-- The same (quadkey, year, quarter) ordering read off the output rows. -/
def compLe (a b : CompRow) : Prop :=
  strLtB a.quadkey b.quadkey = true ∨
    (a.quadkey = b.quadkey ∧
      (a.year < b.year ∨ (a.year = b.year ∧ a.quarter ≤ b.quarter)))

instance : IsTotal CRow yqLe where
  total a b := by unfold yqLe; omega

instance : IsTrans CRow yqLe where
  trans a b c hab hbc := by unfold yqLe at *; omega

instance : IsTotal MRow mqLe where
  total a b := by
    unfold mqLe
    by_cases hab : strLtB a.quadkey b.quadkey = true
    · exact Or.inl (Or.inl hab)
    · by_cases hba : strLtB b.quadkey a.quadkey = true
      · exact Or.inr (Or.inl hba)
      · have heq : a.quadkey = b.quadkey :=
          stringDataEq (chListLt_asymm_eq a.quadkey.data b.quadkey.data
            (by simpa [strLtB] using hab) (by simpa [strLtB] using hba))
        rcases Int.lt_or_le a.year b.year with h | h
        · exact Or.inl (Or.inr ⟨heq, Or.inl h⟩)
        · rcases Int.lt_or_le b.year a.year with h' | h'
          · exact Or.inr (Or.inr ⟨heq.symm, Or.inl h'⟩)
          · have hy : a.year = b.year := le_antisymm h' h
            rcases Int.le_total a.quarter b.quarter with hq | hq
            · exact Or.inl (Or.inr ⟨heq, Or.inr ⟨hy, hq⟩⟩)
            · exact Or.inr (Or.inr ⟨heq.symm, Or.inr ⟨hy.symm, hq⟩⟩)

lemma strLtB_trans {a b c : String} (hab : strLtB a b = true) (hbc : strLtB b c = true) :
    strLtB a c = true :=
  chListLt_trans a.data b.data c.data hab hbc

instance : IsTrans MRow mqLe where
  trans a b c hab hbc := by
    unfold mqLe at *
    rcases hab with hab | ⟨heq, hab⟩
    · rcases hbc with hbc | ⟨heq', _⟩
      · exact Or.inl (strLtB_trans hab hbc)
      · exact Or.inl (heq' ▸ hab)
    · rcases hbc with hbc | ⟨heq', hbc⟩
      · exact Or.inl (heq ▸ hbc)
      · exact Or.inr ⟨heq.trans heq', by omega⟩

/-! ### The comparison pipeline (`_create_comparison_file`) -/

/-- Pandas `Series.mean()` with the default `skipna=True`: the mean of the
non-missing values, `NaN` (here `none`) when there are none. -/
def skipnaMean (l : List (Option ℚ)) : Option ℚ :=
  let vs := l.filterMap id
  if vs.length = 0 then none else some (vs.sum / vs.length)

/-- The `baseline_metrics` frame of the code (`baseline.groupby('quadkey')`
with mean aggregation), looked up by quadkey as the left-join does: `none`
when the quadkey has no baseline row at all. -/
def baselineMetrics (baseline : List CRow) (qk : String) :
    Option (Option ℚ × Option ℚ) :=
  let g := baseline.filter (fun r => decide (r.quadkey = qk))
  if g.length = 0 then none
  else some (skipnaMean (g.map (fun r => r.avg_d_kbps_mean)),
             skipnaMean (g.map (fun r => r.avg_u_kbps_mean)))

/-- One row of `comparison` after the left-join with `baseline_metrics` and
the percent-change and `time_period` column assignments. -/
def mkMRow (baseline : List CRow) (r : CRow) : MRow :=
  let bm := baselineMetrics baseline r.quadkey
  let bd : Option ℚ := match bm with | none => none | some p => p.1
  let bu : Option ℚ := match bm with | none => none | some p => p.2
  { quadkey := r.quadkey
    year := r.year
    quarter := r.quarter
    avg_d_kbps_mean := r.avg_d_kbps_mean
    avg_u_kbps_mean := r.avg_u_kbps_mean
    baseline_d_kbps := bd
    baseline_u_kbps := bu
    d_kbps_pct_change := pctPF r.avg_d_kbps_mean bd
    u_kbps_pct_change := pctPF r.avg_u_kbps_mean bu
    time_period := (r.year : ℚ) + ((r.quarter : ℚ) - 1) * (1/4) }

/-- One output row: the quarter-over-quarter changes computed from the
shifted (previous same-quadkey) row, the year-transition flag with the
pandas `NaN` comparison semantics (`NaN == 4` is false, `year != NaN` is
true), and the cumulative-change columns copied from the baseline
percent-change columns. -/
def mkCompRow (m : MRow) (prev : Option MRow) : CompRow :=
  { quadkey := m.quadkey
    year := m.year
    quarter := m.quarter
    avg_d_kbps_mean := m.avg_d_kbps_mean
    avg_u_kbps_mean := m.avg_u_kbps_mean
    baseline_d_kbps := m.baseline_d_kbps
    baseline_u_kbps := m.baseline_u_kbps
    d_kbps_pct_change := m.d_kbps_pct_change
    u_kbps_pct_change := m.u_kbps_pct_change
    time_period := m.time_period
    d_kbps_qoq_change :=
      pctPF m.avg_d_kbps_mean (prev.bind (fun p => p.avg_d_kbps_mean))
    u_kbps_qoq_change :=
      pctPF m.avg_u_kbps_mean (prev.bind (fun p => p.avg_u_kbps_mean))
    is_year_transition :=
      (decide (m.quarter = 1)) &&
        (match prev with | none => false | some p => decide (p.quarter = 4)) &&
        (match prev with | none => true | some p => decide (m.year ≠ p.year))
    d_kbps_cumulative_change := m.d_kbps_pct_change
    u_kbps_cumulative_change := m.u_kbps_pct_change }

/-- The grouped `shift(1)` pass over the sorted frame: each row is paired
with the nearest earlier row of the same quadkey (`acc` holds the already
visited rows, most recent first). -/
def addPrev (acc : List MRow) : List MRow → List CompRow
  | [] => []
  | r :: rest =>
    mkCompRow r (acc.find? (fun p => decide (p.quadkey = r.quadkey))) ::
      addPrev (r :: acc) rest

/-- The possible outcomes of `_create_comparison_file`.
`indexError` models the uncaught Python `IndexError` from
`df_sorted['year'].iloc[0]` on an empty frame; `noOutput` models the
logged-warning `return None` branch.  Modelled from the spec:
`noBaselineError` stands for the `NoBaselineError` the specification
requires; no code path produces it (the error class does not exist in the
source). -/
inductive CompResult where
  | indexError : CompResult
  | noOutput : CompResult
  | noBaselineError : CompResult
  | output (rows : List CompRow) : CompResult
deriving DecidableEq

/-- The baseline-period rows: the rows whose (year, quarter) equal those of
the first row of the frame sorted by (year, quarter). -/
def baselineOf (df : List CRow) (r0 : CRow) : List CRow :=
  df.filter (fun r => decide (r.year = r0.year) && decide (r.quarter = r0.quarter))

/-- Embedding of `TableauDataPreparer._create_comparison_file` up to the
Excel write: baseline period from the first row of the frame sorted by
(year, quarter); baseline per-quadkey means; left-join; percent changes;
sort by (quadkey, year, quarter); grouped shift; quarter-over-quarter
changes; year-transition flag; cumulative copies. -/
def createComparisonAux (df : List CRow) : List CRow → CompResult
  | [] => CompResult.indexError
  | r0 :: _ =>
    if (baselineOf df r0).length = 0 then CompResult.noOutput
    else
      CompResult.output
        (addPrev [] ((df.map (mkMRow (baselineOf df r0))).insertionSort mqLe))

def createComparison (df : List CRow) : CompResult :=
  createComparisonAux df (df.insertionSort yqLe)

/-- The produced comparison rows, `[]` when no table is produced. -/
def compRowsOf (df : List CRow) : List CompRow :=
  match createComparison df with
  | CompResult.output rows => rows
  | _ => []

/-! Structural lemmas about `createComparison`. -/

lemma createComparison_output_spec {df : List CRow} {out : List CompRow}
    (h : createComparison df = CompResult.output out) :
    ∃ baseline : List CRow,
      out = addPrev [] ((df.map (mkMRow baseline)).insertionSort mqLe) := by
  unfold createComparison at h
  rcases hs : df.insertionSort yqLe with _ | ⟨r0, rest⟩
  · rw [hs] at h
    exact absurd h (by simp [createComparisonAux])
  · rw [hs] at h
    simp only [createComparisonAux] at h
    by_cases hlen : (baselineOf df r0).length = 0
    · rw [if_pos hlen] at h
      exact absurd h (by simp)
    · rw [if_neg hlen] at h
      exact ⟨baselineOf df r0, (CompResult.output.inj h).symm⟩

lemma addPrev_mem :
    ∀ (l acc : List MRow) (r : CompRow), r ∈ addPrev acc l →
      ∃ m p, m ∈ l ∧ r = mkCompRow m p := by
  intro l
  induction l with
  | nil => intro acc r hr; exact absurd hr (List.not_mem_nil r)
  | cons m0 rest ih =>
    intro acc r hr
    rcases List.mem_cons.mp hr with h | h
    · exact ⟨m0, _, List.mem_cons_self _ _, h⟩
    · rcases ih _ r h with ⟨m, p, hm, hr'⟩
      exact ⟨m, p, List.mem_cons_of_mem _ hm, hr'⟩

lemma mem_output_pct {df : List CRow} {out : List CompRow} {r : CompRow}
    (hout : createComparison df = CompResult.output out) (hr : r ∈ out) :
    r.d_kbps_pct_change = pctPF r.avg_d_kbps_mean r.baseline_d_kbps ∧
      r.u_kbps_pct_change = pctPF r.avg_u_kbps_mean r.baseline_u_kbps := by
  rcases createComparison_output_spec hout with ⟨baseline, hspec⟩
  subst hspec
  rcases addPrev_mem _ _ _ hr with ⟨m, p, hm, rfl⟩
  have hm' : m ∈ df.map (mkMRow baseline) := (List.mem_insertionSort mqLe).mp hm
  rcases List.mem_map.mp hm' with ⟨c, _, rfl⟩
  exact ⟨rfl, rfl⟩

/-! Evaluation lemmas for the percent-change expression. -/

lemma pctPF_none (v : Option ℚ) : pctPF v none = PFloat.nan := by
  cases v <;> rfl

lemma pctPF_some_nonzero (v b : ℚ) (hb : b ≠ 0) :
    pctPF (some v) (some b) = PFloat.fin ((v - b) / b * 100) := by
  simp [pctPF, toPF, PFloat.sub, PFloat.div, PFloat.mul, hb]

lemma pctPF_some_zero (v : ℚ) :
    pctPF (some v) (some 0) =
      if v = 0 then PFloat.nan else if 0 < v then PFloat.pinf else PFloat.ninf := by
  by_cases hv : v = 0
  · simp [pctPF, toPF, PFloat.sub, PFloat.div, PFloat.mul, hv]
  · by_cases hv' : 0 < v
    · simp only [pctPF, toPF, PFloat.sub, sub_zero, PFloat.div, if_pos rfl,
        if_neg hv, if_pos hv', PFloat.mul, if_neg hv]
      norm_num
    · simp only [pctPF, toPF, PFloat.sub, sub_zero, PFloat.div, if_pos rfl,
        if_neg hv, if_neg hv', PFloat.mul]
      norm_num

/-- C6 counterexample: on an input where the baseline period has zero rows
(the empty table, where every period has zero rows), `_create_comparison_file`
fails with an `IndexError` from `iloc[0]`, not with a `NoBaselineError`. -/
theorem comparison_empty_input_index_error :
    createComparison [] = CompResult.indexError ∧
      CompResult.indexError ≠ CompResult.noBaselineError :=
  ⟨rfl, by decide⟩

/-- C6 as amended: no `NoBaselineError` exists.  On the empty input the
function fails with an `IndexError` before any baseline is computed; for
every input the defensive zero-baseline branch (which would log a warning
and return `None` — no comparison output — rather than raise) is
unreachable, because the baseline period is taken from the first row of the
data itself; and no input produces the spec's `NoBaselineError`. -/
theorem comparison_no_baseline_behavior :
    createComparison [] = CompResult.indexError ∧
      (∀ df, createComparison df ≠ CompResult.noOutput) ∧
      (∀ df, createComparison df ≠ CompResult.noBaselineError) := by
  have hcases : ∀ df : List CRow,
      createComparison df = CompResult.indexError ∨
        ∃ rows, createComparison df = CompResult.output rows := by
    intro df
    unfold createComparison
    rcases hs : df.insertionSort yqLe with _ | ⟨r0, rest⟩
    · left; rfl
    · right
      have hr0 : r0 ∈ df := by
        have : r0 ∈ df.insertionSort yqLe := by
          rw [hs]; exact List.mem_cons_self _ _
        exact (List.mem_insertionSort yqLe).mp this
      have hfil : r0 ∈ baselineOf df r0 := by
        rw [baselineOf, List.mem_filter]
        exact ⟨hr0, by simp⟩
      have hlen : ¬(baselineOf df r0).length = 0 := by
        intro h0
        rw [List.length_eq_zero] at h0
        rw [h0] at hfil
        exact List.not_mem_nil r0 hfil
      exact ⟨_, by simp only [createComparisonAux]; rw [if_neg hlen]⟩
  refine ⟨rfl, fun df h => ?_, fun df h => ?_⟩
  · rcases hcases df with hc | ⟨rows, hc⟩ <;> rw [hc] at h <;> exact absurd h (by simp)
  · rcases hcases df with hc | ⟨rows, hc⟩ <;> rw [hc] at h <;> exact absurd h (by simp)

/-- Witness for the amended C6 on a concrete one-row input. -/
theorem comparison_no_baseline_behavior_witness :
    createComparison [CRow.mk "0" 2024 1 (some 1) (some 1)] ≠ CompResult.noOutput :=
  comparison_no_baseline_behavior.2.1 [CRow.mk "0" 2024 1 (some 1) (some 1)]

/-- Concrete input for the C3 counterexample: quadkey "0" has baseline-period
mean 0 and a later period with mean 100. -/
def c3Df : List CRow :=
  [CRow.mk "0" 2024 1 (some 0) (some 0), CRow.mk "0" 2024 2 (some 100) (some 100)]

/-- C3 counterexample: with a zero baseline value and a nonzero current
value, the percent-change field is `+inf` — an infinity leaks into the
output instead of the null the claim requires (no error is raised). -/
theorem comparison_zero_baseline_infinity :
    (compRowsOf c3Df).map (fun r => r.d_kbps_pct_change) = [PFloat.nan, PFloat.pinf] ∧
      PFloat.pinf ≠ PFloat.nan :=
  ⟨by decide, by decide⟩

/-- C3 as amended: the percent-change field equals
`(value - baseline)/baseline * 100` when the baseline value is present and
nonzero, and is null (`NaN`) when the baseline value is missing; but when
the baseline value is zero the field is `+inf`/`-inf` for a nonzero value
(`NaN` only when the value is zero too).  No error is raised in any case. -/
theorem comparison_pct_change_cases :
    ∀ df out r, createComparison df = CompResult.output out → r ∈ out →
      ((r.baseline_d_kbps = none → r.d_kbps_pct_change = PFloat.nan) ∧
       (∀ v b, r.avg_d_kbps_mean = some v → r.baseline_d_kbps = some b → b ≠ 0 →
          r.d_kbps_pct_change = PFloat.fin ((v - b) / b * 100)) ∧
       (∀ v, r.avg_d_kbps_mean = some v → r.baseline_d_kbps = some 0 →
          r.d_kbps_pct_change =
            if v = 0 then PFloat.nan else if 0 < v then PFloat.pinf else PFloat.ninf)) ∧
      ((r.baseline_u_kbps = none → r.u_kbps_pct_change = PFloat.nan) ∧
       (∀ v b, r.avg_u_kbps_mean = some v → r.baseline_u_kbps = some b → b ≠ 0 →
          r.u_kbps_pct_change = PFloat.fin ((v - b) / b * 100)) ∧
       (∀ v, r.avg_u_kbps_mean = some v → r.baseline_u_kbps = some 0 →
          r.u_kbps_pct_change =
            if v = 0 then PFloat.nan else if 0 < v then PFloat.pinf else PFloat.ninf)) := by
  intro df out r hout hr
  obtain ⟨hd, hu⟩ := mem_output_pct hout hr
  constructor
  · refine ⟨fun hb => ?_, fun v b hv hb hbne => ?_, fun v hv hb => ?_⟩
    · rw [hd, hb, pctPF_none]
    · rw [hd, hv, hb, pctPF_some_nonzero v b hbne]
    · rw [hd, hv, hb, pctPF_some_zero v]
  · refine ⟨fun hb => ?_, fun v b hv hb hbne => ?_, fun v hv hb => ?_⟩
    · rw [hu, hb, pctPF_none]
    · rw [hu, hv, hb, pctPF_some_nonzero v b hbne]
    · rw [hu, hv, hb, pctPF_some_zero v]

/-- A throwaway default row used only to read entries out of concrete row
lists in witnesses. -/
def dummyCompRow : CompRow :=
  CompRow.mk "" 0 0 none none none none PFloat.nan PFloat.nan 0
    PFloat.nan PFloat.nan false PFloat.nan PFloat.nan

/-- Concrete single-row input used by the C3 witness. -/
def w3Df : List CRow := [CRow.mk "0" 2024 1 (some 50) (some 50)]

/-- Witness for the amended C3: the single row of `w3Df` is its own
baseline (value 50, baseline 50 ≠ 0), so its percent change is the exact
formula value. -/
theorem comparison_pct_change_cases_witness :
    ((compRowsOf w3Df).getD 0 dummyCompRow).d_kbps_pct_change =
      PFloat.fin ((50 - 50) / 50 * 100) := by
  have h := comparison_pct_change_cases w3Df (compRowsOf w3Df)
    ((compRowsOf w3Df).getD 0 dummyCompRow) (by decide) (by decide)
  exact h.1.2.1 50 50 (by decide) (by decide) (by norm_num)

/-! ### The grouped shift: previous-row lemmas for C4/C5 -/

/-- The nearest preceding row with the given quadkey among the first `i`
rows of the output, i.e. what `groupby('quadkey').shift(1)` pairs row `i`
with. -/
def findPrevQ (out : List CompRow) (i : ℕ) (qk : String) : Option CompRow :=
  ((out.take i).reverse).find? (fun p => decide (p.quadkey = qk))

/-- The columns of an output row that the shift reads. -/
def cProj (c : CompRow) : String × ℤ × ℤ × Option ℚ × Option ℚ :=
  (c.quadkey, c.year, c.quarter, c.avg_d_kbps_mean, c.avg_u_kbps_mean)

/-- The same columns of a merged row. -/
def mProjP (m : MRow) : String × ℤ × ℤ × Option ℚ × Option ℚ :=
  (m.quadkey, m.year, m.quarter, m.avg_d_kbps_mean, m.avg_u_kbps_mean)

lemma addPrev_get? :
    ∀ (l acc : List MRow) (i : ℕ),
      (addPrev acc l).get? i = (l.get? i).map
        (fun r => mkCompRow r (((l.take i).reverse ++ acc).find?
          (fun p => decide (p.quadkey = r.quadkey)))) := by
  intro l
  induction l with
  | nil => intro acc i; simp [addPrev]
  | cons m0 rest ih =>
    intro acc i
    cases i with
    | zero => simp [addPrev]
    | succ i =>
      have harr : ((m0 :: rest).take (i + 1)).reverse ++ acc =
          (rest.take i).reverse ++ (m0 :: acc) := by
        rw [List.take_succ_cons, List.reverse_cons, List.append_assoc,
          List.singleton_append]
      simp only [addPrev, List.get?_cons_succ, ih (m0 :: acc) i, harr]

lemma addPrev_take :
    ∀ (l acc : List MRow) (i : ℕ),
      (addPrev acc l).take i = addPrev acc (l.take i) := by
  intro l
  induction l with
  | nil => intro acc i; simp [addPrev]
  | cons m0 rest ih =>
    intro acc i
    cases i with
    | zero => rfl
    | succ i => simp only [addPrev, List.take_succ_cons, ih]

lemma addPrev_length : ∀ (l acc : List MRow), (addPrev acc l).length = l.length := by
  intro l
  induction l with
  | nil => intro acc; rfl
  | cons m0 rest ih => intro acc; simp [addPrev, ih]

lemma addPrev_map_proj :
    ∀ (l acc : List MRow), (addPrev acc l).map cProj = l.map mProjP := by
  intro l
  induction l with
  | nil => intro acc; rfl
  | cons m0 rest ih =>
    intro acc
    simp only [addPrev, List.map_cons, ih]
    rfl

lemma find?_proj_eq :
    ∀ (l1 : List MRow) (l2 : List CompRow) (qk : String),
      l2.map cProj = l1.map mProjP →
      (l2.find? (fun p => decide (p.quadkey = qk))).map cProj =
        (l1.find? (fun p => decide (p.quadkey = qk))).map mProjP := by
  intro l1
  induction l1 with
  | nil =>
    intro l2 qk h
    rw [List.map_nil, List.map_eq_nil_iff] at h
    subst h
    rfl
  | cons m ms ih =>
    intro l2 qk h
    cases l2 with
    | nil => exact absurd h (by simp)
    | cons c cs =>
      simp only [List.map_cons, List.cons.injEq] at h
      obtain ⟨hhead, htail⟩ := h
      have hqk : c.quadkey = m.quadkey := by
        have := congrArg Prod.fst hhead
        simpa [cProj, mProjP] using this
      by_cases hq : m.quadkey = qk
      · have hcq : c.quadkey = qk := hqk.trans hq
        rw [List.find?_cons_of_pos _ (by simpa using hcq),
          List.find?_cons_of_pos _ (by simpa using hq)]
        simpa using hhead
      · have hcq : ¬c.quadkey = qk := by rw [hqk]; exact hq
        rw [List.find?_cons_of_neg _ (by simpa using hcq),
          List.find?_cons_of_neg _ (by simpa using hq)]
        exact ih cs qk htail

lemma findPrevQ_addPrev (s : List MRow) (i : ℕ) (qk : String) :
    (findPrevQ (addPrev [] s) i qk).map cProj =
      (((s.take i).reverse).find? (fun p => decide (p.quadkey = qk))).map mProjP := by
  unfold findPrevQ
  rw [addPrev_take]
  refine find?_proj_eq _ _ qk ?_
  rw [List.map_reverse, List.map_reverse, addPrev_map_proj]

lemma proj_eq_fields {c : CompRow} {m : MRow} (h : cProj c = mProjP m) :
    c.quadkey = m.quadkey ∧ c.year = m.year ∧ c.quarter = m.quarter ∧
      c.avg_d_kbps_mean = m.avg_d_kbps_mean ∧ c.avg_u_kbps_mean = m.avg_u_kbps_mean := by
  simpa [cProj, mProjP, Prod.ext_iff] using h

lemma option_proj_eq_binds {o1 : Option CompRow} {o2 : Option MRow}
    (h : o1.map cProj = o2.map mProjP) :
    o1.bind (fun p => p.avg_d_kbps_mean) = o2.bind (fun p => p.avg_d_kbps_mean) ∧
      o1.bind (fun p => p.avg_u_kbps_mean) = o2.bind (fun p => p.avg_u_kbps_mean) := by
  cases o1 with
  | none =>
    cases o2 with
    | none => exact ⟨rfl, rfl⟩
    | some m => exact absurd h (by simp)
  | some c =>
    cases o2 with
    | none => exact absurd h (by simp)
    | some m =>
      simp only [Option.map_some', Option.some.injEq] at h
      rcases proj_eq_fields h with ⟨_, _, _, hd, hu⟩
      simp [hd, hu]

lemma addPrev_pairwise :
    ∀ (l acc : List MRow), l.Pairwise mqLe → (addPrev acc l).Pairwise compLe := by
  intro l
  induction l with
  | nil => intro acc _; exact List.Pairwise.nil
  | cons m0 rest ih =>
    intro acc hp
    rcases List.pairwise_cons.mp hp with ⟨hm0, hrest⟩
    refine List.pairwise_cons.mpr ⟨?_, ih _ hrest⟩
    intro r' hr'
    rcases addPrev_mem rest _ r' hr' with ⟨m', p', hm', rfl⟩
    have h := hm0 m' hm'
    unfold mqLe at h
    unfold compLe
    exact h

lemma output_row_spec {df : List CRow} {out : List CompRow} {i : ℕ} {r : CompRow}
    (hout : createComparison df = CompResult.output out) (hr : out.get? i = some r) :
    ∃ (s : List MRow) (m : MRow),
      out = addPrev [] s ∧ s.Pairwise mqLe ∧ s.get? i = some m ∧
        r = mkCompRow m (((s.take i).reverse).find?
          (fun p => decide (p.quadkey = m.quadkey))) := by
  rcases createComparison_output_spec hout with ⟨baseline, hspec⟩
  refine ⟨(df.map (mkMRow baseline)).insertionSort mqLe, ?_⟩
  have hsorted : ((df.map (mkMRow baseline)).insertionSort mqLe).Pairwise mqLe :=
    List.sorted_insertionSort mqLe _
  subst hspec
  rw [addPrev_get?] at hr
  rcases hm : ((df.map (mkMRow baseline)).insertionSort mqLe).get? i with _ | m
  · rw [hm] at hr
    exact absurd hr (by simp)
  · rw [hm] at hr
    simp only [Option.map_some', Option.some.injEq] at hr
    refine ⟨m, rfl, hsorted, rfl, ?_⟩
    rw [← hr, List.append_nil]

/-- Gap fixture of the spec: quadkey "7" with (2024, Q1) = 100 and
(2024, Q3) = 80, Q2 missing. -/
def gapDf : List CRow :=
  [CRow.mk "7" 2024 1 (some 100) (some 100), CRow.mk "7" 2024 3 (some 80) (some 80)]

/-- Year-transition fixture of the spec: quadkey "7" with (2024, Q4) = 100
and (2025, Q1) = 120. -/
def yearDf : List CRow :=
  [CRow.mk "7" 2024 4 (some 100) (some 100), CRow.mk "7" 2025 1 (some 120) (some 120)]

/-- C4.  In the comparison output (sorted by (quadkey, year, quarter)
ascending, one output row per input row — no synthesized rows), every row's
quarter-over-quarter change is computed from the immediately preceding row
with the same quadkey in that sort order (so a data gap silently uses the
nearest earlier existing period), via `(value - prev)/prev * 100`; it is
null when the quadkey has no preceding row (`pctPF v none` is `NaN`).  On
the gap fixture, the (2024, Q3) row's previous is the (2024, Q1) row and its
change is -20. -/
theorem comparison_qoq_uses_previous_row :
    (∀ df out i r, createComparison df = CompResult.output out → out.get? i = some r →
        r.d_kbps_qoq_change =
          pctPF r.avg_d_kbps_mean
            ((findPrevQ out i r.quadkey).bind (fun p => p.avg_d_kbps_mean)) ∧
        r.u_kbps_qoq_change =
          pctPF r.avg_u_kbps_mean
            ((findPrevQ out i r.quadkey).bind (fun p => p.avg_u_kbps_mean))) ∧
    (∀ v, pctPF v none = PFloat.nan) ∧
    (∀ df out, createComparison df = CompResult.output out →
        out.length = df.length ∧ List.Sorted compLe out) ∧
    (compRowsOf gapDf).map (fun r => r.d_kbps_qoq_change) =
      [PFloat.nan, PFloat.fin (-20)] := by
  refine ⟨?_, pctPF_none, ?_, by decide⟩
  · intro df out i r hout hr
    rcases output_row_spec hout hr with ⟨s, m, houtEq, hsor, hm, hreq⟩
    subst houtEq
    have hproj := findPrevQ_addPrev s i m.quadkey
    rcases option_proj_eq_binds hproj with ⟨hbd, hbu⟩
    subst hreq
    simp only [mkCompRow]
    exact ⟨by rw [hbd], by rw [hbu]⟩
  · intro df out hout
    rcases createComparison_output_spec hout with ⟨baseline, hspec⟩
    subst hspec
    constructor
    · rw [addPrev_length, List.length_insertionSort, List.length_map]
    · exact addPrev_pairwise _ _ (List.sorted_insertionSort mqLe _)

/-- Witness for C4 at the gap fixture's second row. -/
theorem comparison_qoq_uses_previous_row_witness :
    ((compRowsOf gapDf).getD 1 dummyCompRow).d_kbps_qoq_change =
      pctPF ((compRowsOf gapDf).getD 1 dummyCompRow).avg_d_kbps_mean
        ((findPrevQ (compRowsOf gapDf) 1
            ((compRowsOf gapDf).getD 1 dummyCompRow).quadkey).bind
          (fun p => p.avg_d_kbps_mean)) :=
  (comparison_qoq_uses_previous_row.1 gapDf (compRowsOf gapDf) 1
    ((compRowsOf gapDf).getD 1 dummyCompRow) (by decide) (by decide)).1

lemma mkCompRow_flag_iff (m : MRow) (pm : Option MRow) :
    (mkCompRow m pm).is_year_transition = true ↔
      ∃ q, pm = some q ∧ m.quarter = 1 ∧ q.quarter = 4 ∧ m.year ≠ q.year := by
  cases pm with
  | none => simp [mkCompRow]
  | some q =>
    simp only [mkCompRow, Bool.and_eq_true, decide_eq_true_eq, Option.some.injEq]
    constructor
    · rintro ⟨⟨h1, h4⟩, hy⟩
      exact ⟨q, rfl, h1, h4, hy⟩
    · rintro ⟨q', hq', h1, h4, hy⟩
      cases hq'
      exact ⟨⟨h1, h4⟩, hy⟩

/-- C5.  A comparison row's `is_year_transition` flag is true exactly when
its quarter is 1, the immediately preceding same-quadkey row (in the
(quadkey, year, quarter) sort order) exists and has quarter 4, and that
row's year differs from the current row's year.  On the year-transition
fixture, the (2025, Q1) row has the flag set and a +20 quarter-over-quarter
change. -/
theorem comparison_year_transition_flag :
    (∀ df out i r, createComparison df = CompResult.output out → out.get? i = some r →
        (r.is_year_transition = true ↔
          ∃ p, findPrevQ out i r.quadkey = some p ∧
            r.quarter = 1 ∧ p.quarter = 4 ∧ r.year ≠ p.year)) ∧
    (compRowsOf yearDf).map (fun r => (r.is_year_transition, r.d_kbps_qoq_change)) =
      [(false, PFloat.nan), (true, PFloat.fin 20)] := by
  refine ⟨?_, by decide⟩
  intro df out i r hout hr
  rcases output_row_spec hout hr with ⟨s, m, houtEq, hsor, hm, hreq⟩
  subst houtEq
  have hproj := findPrevQ_addPrev s i m.quadkey
  subst hreq
  rw [mkCompRow_flag_iff]
  simp only [mkCompRow]
  rcases hpm : ((s.take i).reverse).find? (fun p => decide (p.quadkey = m.quadkey)) with _ | q
  · have hnone : findPrevQ (addPrev [] s) i m.quadkey = none := by
      rcases hF : findPrevQ (addPrev [] s) i m.quadkey with _ | pc
      · rfl
      · rw [hF, hpm] at hproj
        exact absurd hproj (by simp)
    rw [hpm, hnone]
    simp
  · rcases hF : findPrevQ (addPrev [] s) i m.quadkey with _ | pc
    · rw [hF, hpm] at hproj
      exact absurd hproj (by simp)
    · rw [hF, hpm] at hproj
      simp only [Option.map_some', Option.some.injEq] at hproj
      rcases proj_eq_fields hproj with ⟨hqk, hy, hq, _, _⟩
      rw [hpm]
      constructor
      · rintro ⟨q', hq', h1, h4, hy'⟩
        obtain rfl : q' = q := (Option.some.inj hq').symm
        exact ⟨pc, rfl, h1, by rw [hq]; exact h4, by rw [hy]; exact hy'⟩
      · rintro ⟨p, hp, h1, h4, hy'⟩
        obtain rfl : p = pc := (Option.some.inj hp).symm
        exact ⟨q, rfl, h1, by rw [← hq]; exact h4, by rw [← hy]; exact hy'⟩

/-- Witness for C5 at the year-transition fixture's second row. -/
theorem comparison_year_transition_flag_witness :
    ((compRowsOf yearDf).getD 1 dummyCompRow).is_year_transition = true := by
  have h := comparison_year_transition_flag.1 yearDf (compRowsOf yearDf) 1
    ((compRowsOf yearDf).getD 1 dummyCompRow) (by decide) (by decide)
  exact h.mpr ⟨(compRowsOf yearDf).getD 0 dummyCompRow, by decide, by decide,
    by decide, by decide⟩

/-! ### The aggregation engine (`_aggregate_data`)

The input schema is fixed to what the pipeline feeds this function: the
default Ookla columns (`quadkey`, `avg_d_kbps`, `avg_u_kbps`, `avg_lat_ms`,
`tests`, `devices`) plus the `year`/`quarter`/`data_type` metadata, with
no pre-existing `latitude`/`longitude` columns, so the quadkey-decoding
branch always runs.  The decoded latitude/longitude are injective monotone
transforms of the rational normalized coordinates `(x, y)` kept here; and
since they are functions of `quadkey` alone, grouping by
(`quadkey`, `year`, `quarter`, `data_type`, `latitude`, `longitude`)
partitions the rows exactly as grouping by the first four columns does, so
the embedding groups by those and carries the coordinates through. -/

structure Row where
  quadkey : String
  avg_d_kbps : ℚ
  avg_u_kbps : ℚ
  avg_lat_ms : ℚ
  tests : ℕ
  devices : ℕ
  year : ℤ
  quarter : ℤ
  data_type : String
deriving DecidableEq

/-- The group key of `groupby(['quadkey', 'year', 'quarter', 'data_type',
'latitude', 'longitude'])`, with the coordinate columns dropped as argued
above. -/
structure GroupKey where
  quadkey : String
  year : ℤ
  quarter : ℤ
  data_type : String
deriving DecidableEq

/-- The group key of a row. -/
def rowKey (r : Row) : GroupKey :=
  GroupKey.mk r.quadkey r.year r.quarter r.data_type

/-- The ascending group-key order pandas uses for `groupby(..., sort=True)`
output (the coordinate components of the key are determined by `quadkey`
and hence never reached when comparing keys of actual rows). -/
def keyLe (a b : GroupKey) : Prop :=
  strLtB a.quadkey b.quadkey = true ∨ (a.quadkey = b.quadkey ∧
    (a.year < b.year ∨ (a.year = b.year ∧
      (a.quarter < b.quarter ∨ (a.quarter = b.quarter ∧
        (strLtB a.data_type b.data_type = true ∨ a.data_type = b.data_type))))))

instance : DecidableRel keyLe := fun a b =>
  inferInstanceAs (Decidable (_ ∨ _))

lemma strLtB_asymm {a b : String} (h : strLtB a b = true) : ¬strLtB b a = true := by
  intro h'
  have := chListLt_trans _ _ _ h h'
  rw [chListLt_irrefl] at this
  exact Bool.noConfusion this

lemma strLtB_irrefl_of_eq {a b : String} (h : a = b) : ¬strLtB a b = true := by
  subst h
  intro h'
  rw [strLtB, chListLt_irrefl] at h'
  exact Bool.noConfusion h'

lemma strLtB_total_eq {a b : String}
    (h1 : ¬strLtB a b = true) (h2 : ¬strLtB b a = true) : a = b :=
  stringDataEq (chListLt_asymm_eq a.data b.data
    (by simpa [strLtB] using h1) (by simpa [strLtB] using h2))

instance : IsTotal GroupKey keyLe where
  total a b := by
    unfold keyLe
    by_cases hab : strLtB a.quadkey b.quadkey = true
    · exact Or.inl (Or.inl hab)
    · by_cases hba : strLtB b.quadkey a.quadkey = true
      · exact Or.inr (Or.inl hba)
      · have heq : a.quadkey = b.quadkey := strLtB_total_eq hab hba
        rcases Int.lt_or_le a.year b.year with h | h
        · exact Or.inl (Or.inr ⟨heq, Or.inl h⟩)
        · rcases Int.lt_or_le b.year a.year with h' | h'
          · exact Or.inr (Or.inr ⟨heq.symm, Or.inl h'⟩)
          · have hy : a.year = b.year := le_antisymm h' h
            rcases Int.lt_or_le a.quarter b.quarter with hq | hq
            · exact Or.inl (Or.inr ⟨heq, Or.inr ⟨hy, Or.inl hq⟩⟩)
            · rcases Int.lt_or_le b.quarter a.quarter with hq' | hq'
              · exact Or.inr (Or.inr ⟨heq.symm, Or.inr ⟨hy.symm, Or.inl hq'⟩⟩)
              · have hqt : a.quarter = b.quarter := le_antisymm hq' hq
                by_cases hd : strLtB a.data_type b.data_type = true
                · exact Or.inl (Or.inr ⟨heq, Or.inr ⟨hy, Or.inr ⟨hqt, Or.inl hd⟩⟩⟩)
                · by_cases hd' : strLtB b.data_type a.data_type = true
                  · exact Or.inr (Or.inr ⟨heq.symm, Or.inr ⟨hy.symm,
                      Or.inr ⟨hqt.symm, Or.inl hd'⟩⟩⟩)
                  · exact Or.inl (Or.inr ⟨heq, Or.inr ⟨hy, Or.inr
                      ⟨hqt, Or.inr (strLtB_total_eq hd hd')⟩⟩⟩)

instance : IsTrans GroupKey keyLe where
  trans a b c hab hbc := by
    unfold keyLe at *
    rcases hab with hab | ⟨hq1, hab⟩
    · rcases hbc with hbc | ⟨hq2, _⟩
      · exact Or.inl (strLtB_trans hab hbc)
      · exact Or.inl (hq2 ▸ hab)
    · rcases hbc with hbc | ⟨hq2, hbc⟩
      · exact Or.inl (hq1 ▸ hbc)
      · refine Or.inr ⟨hq1.trans hq2, ?_⟩
        rcases hab with hab | ⟨hy1, hab⟩
        · rcases hbc with hbc | ⟨hy2, _⟩
          · exact Or.inl (hab.trans hbc)
          · exact Or.inl (hy2 ▸ hab)
        · rcases hbc with hbc | ⟨hy2, hbc⟩
          · exact Or.inl (hy1 ▸ hbc)
          · refine Or.inr ⟨hy1.trans hy2, ?_⟩
            rcases hab with hab | ⟨hqt1, hab⟩
            · rcases hbc with hbc | ⟨hqt2, _⟩
              · exact Or.inl (hab.trans hbc)
              · exact Or.inl (hqt2 ▸ hab)
            · rcases hbc with hbc | ⟨hqt2, hbc⟩
              · exact Or.inl (hqt1 ▸ hbc)
              · refine Or.inr ⟨hqt1.trans hqt2, ?_⟩
                rcases hab with hab | hab
                · rcases hbc with hbc | hbc
                  · exact Or.inl (strLtB_trans hab hbc)
                  · exact Or.inl (hbc ▸ hab)
                · rcases hbc with hbc | hbc
                  · exact Or.inl (hab ▸ hbc)
                  · exact Or.inr (hab.trans hbc)

instance : IsAntisymm GroupKey keyLe where
  antisymm a b hab hba := by
    unfold keyLe at hab hba
    have hq : a.quadkey = b.quadkey := by
      rcases hab with hab | ⟨h, _⟩
      · rcases hba with hba | ⟨h', _⟩
        · exact absurd hba (strLtB_asymm hab)
        · exact absurd hab (strLtB_irrefl_of_eq h'.symm)
      · exact h
    have hy : a.year = b.year := by
      rcases hab with hab | ⟨_, hab⟩
      · exact absurd hab (strLtB_irrefl_of_eq hq)
      · rcases hba with hba | ⟨_, hba⟩
        · exact absurd hba (strLtB_irrefl_of_eq hq.symm)
        · rcases hab with hab | ⟨h, _⟩
          · rcases hba with hba | ⟨h', _⟩
            · omega
            · omega
          · exact h
    have hqt : a.quarter = b.quarter := by
      rcases hab with hab | ⟨_, hab⟩
      · exact absurd hab (strLtB_irrefl_of_eq hq)
      · rcases hba with hba | ⟨_, hba⟩
        · exact absurd hba (strLtB_irrefl_of_eq hq.symm)
        · rcases hab with hab | ⟨_, hab⟩
          · omega
          · rcases hba with hba | ⟨_, hba⟩
            · omega
            · rcases hab with hab | ⟨h, _⟩
              · rcases hba with hba | ⟨h', _⟩
                · omega
                · omega
              · exact h
    have hd : a.data_type = b.data_type := by
      rcases hab with hab | ⟨_, hab⟩
      · exact absurd hab (strLtB_irrefl_of_eq hq)
      · rcases hba with hba | ⟨_, hba⟩
        · exact absurd hba (strLtB_irrefl_of_eq hq.symm)
        · rcases hab with hab | ⟨_, hab⟩
          · omega
          · rcases hba with hba | ⟨_, hba⟩
            · omega
            · rcases hab with hab | ⟨_, hab⟩
              · omega
              · rcases hba with hba | ⟨_, hba⟩
                · omega
                · rcases hab with hab | hab
                  · rcases hba with hba | hba
                    · exact absurd hba (strLtB_asymm hab)
                    · exact absurd hab (strLtB_irrefl_of_eq hba.symm)
                  · exact hab
    cases a
    cases b
    simp only [GroupKey.mk.injEq]
    exact ⟨hq, hy, hqt, hd⟩

/-! Group statistics.  Groups produced by `groupby` are never empty, so the
`[]` branches below are unreachable for actual groups; the mean of the
empty list is arbitrarily 0 there.  The standard-deviation columns are
represented by the sample variance (`ddof=1`), the square of the std, which
keeps the value rational; pandas' `NaN` std of a single-row group is
`none`. -/

/-- Mean of a column within a group. -/
def listMean (l : List ℚ) : ℚ := l.sum / l.length

/-- Minimum of a column within a group. -/
def listMinD : List ℚ → ℚ
  | [] => 0
  | x :: xs => xs.foldl min x

/-- Maximum of a column within a group. -/
def listMaxD : List ℚ → ℚ
  | [] => 0
  | x :: xs => xs.foldl max x

/-- Sample variance (`ddof=1`) of a column within a group; `none` for fewer
than two samples (pandas' `NaN`). -/
def listVar (l : List ℚ) : Option ℚ :=
  if l.length ≤ 1 then none
  else some ((l.map (fun x => (x - listMean l) ^ 2)).sum / (l.length - 1 : ℕ))

lemma foldl_min_mem : ∀ (xs : List ℚ) (x : ℚ), xs.foldl min x ∈ x :: xs := by
  intro xs
  induction xs with
  | nil => intro x; simp
  | cons a as ih =>
    intro x
    rw [List.foldl_cons]
    rcases List.mem_cons.mp (ih (min x a)) with h | h
    · rcases min_choice x a with hc | hc
      · rw [h, hc]; exact List.mem_cons_self _ _
      · rw [h, hc]; exact List.mem_cons_of_mem _ (List.mem_cons_self _ _)
    · exact List.mem_cons_of_mem _ (List.mem_cons_of_mem _ h)

lemma foldl_min_le : ∀ (xs : List ℚ) (x y : ℚ), y ∈ x :: xs → xs.foldl min x ≤ y := by
  intro xs
  induction xs with
  | nil =>
    intro x y hy
    rcases List.mem_cons.mp hy with rfl | hy'
    · exact le_refl _
    · exact absurd hy' (List.not_mem_nil y)
  | cons a as ih =>
    intro x y hy
    rw [List.foldl_cons]
    rcases List.mem_cons.mp hy with heq | hy'
    · rw [heq]
      exact (ih (min x a) (min x a) (List.mem_cons_self _ _)).trans (min_le_left x a)
    · rcases List.mem_cons.mp hy' with heq | hy''
      · rw [heq]
        exact (ih (min x a) (min x a) (List.mem_cons_self _ _)).trans (min_le_right x a)
      · exact ih (min x a) y (List.mem_cons_of_mem _ hy'')

lemma foldl_max_mem : ∀ (xs : List ℚ) (x : ℚ), xs.foldl max x ∈ x :: xs := by
  intro xs
  induction xs with
  | nil => intro x; simp
  | cons a as ih =>
    intro x
    rw [List.foldl_cons]
    rcases List.mem_cons.mp (ih (max x a)) with h | h
    · rcases max_choice x a with hc | hc
      · rw [h, hc]; exact List.mem_cons_self _ _
      · rw [h, hc]; exact List.mem_cons_of_mem _ (List.mem_cons_self _ _)
    · exact List.mem_cons_of_mem _ (List.mem_cons_of_mem _ h)

lemma foldl_max_ge : ∀ (xs : List ℚ) (x y : ℚ), y ∈ x :: xs → y ≤ xs.foldl max x := by
  intro xs
  induction xs with
  | nil =>
    intro x y hy
    rcases List.mem_cons.mp hy with rfl | hy'
    · exact le_refl _
    · exact absurd hy' (List.not_mem_nil y)
  | cons a as ih =>
    intro x y hy
    rw [List.foldl_cons]
    rcases List.mem_cons.mp hy with heq | hy'
    · rw [heq]
      exact (le_max_left x a).trans (ih (max x a) (max x a) (List.mem_cons_self _ _))
    · rcases List.mem_cons.mp hy' with heq | hy''
      · rw [heq]
        exact (le_max_right x a).trans (ih (max x a) (max x a) (List.mem_cons_self _ _))
      · exact ih (max x a) y (List.mem_cons_of_mem _ hy'')

lemma listMinD_mem : ∀ (l : List ℚ), l ≠ [] → listMinD l ∈ l := by
  intro l hl
  cases l with
  | nil => exact absurd rfl hl
  | cons x xs => exact foldl_min_mem xs x

lemma listMinD_le : ∀ (l : List ℚ) (y : ℚ), y ∈ l → listMinD l ≤ y := by
  intro l y hy
  cases l with
  | nil => exact absurd hy (List.not_mem_nil y)
  | cons x xs => exact foldl_min_le xs x y hy

lemma listMaxD_mem : ∀ (l : List ℚ), l ≠ [] → listMaxD l ∈ l := by
  intro l hl
  cases l with
  | nil => exact absurd rfl hl
  | cons x xs => exact foldl_max_mem xs x

lemma listMaxD_ge : ∀ (l : List ℚ) (y : ℚ), y ∈ l → y ≤ listMaxD l := by
  intro l y hy
  cases l with
  | nil => exact absurd hy (List.not_mem_nil y)
  | cons x xs => exact foldl_max_ge xs x y hy

lemma listMinD_perm {l₁ l₂ : List ℚ} (h : l₁.Perm l₂) : listMinD l₁ = listMinD l₂ := by
  cases l₁ with
  | nil =>
    have : l₂ = [] := List.eq_nil_of_length_eq_zero (by rw [← h.length_eq]; rfl)
    rw [this]
  | cons x xs =>
    have hne1 : (x :: xs) ≠ ([] : List ℚ) := by simp
    have hne2 : l₂ ≠ [] := by
      intro h0
      rw [h0] at h
      have := h.length_eq
      simp at this
    apply le_antisymm
    · exact listMinD_le _ _ (h.mem_iff.mpr (listMinD_mem l₂ hne2))
    · exact listMinD_le _ _ (h.mem_iff.mp (listMinD_mem _ hne1))

lemma listMaxD_perm {l₁ l₂ : List ℚ} (h : l₁.Perm l₂) : listMaxD l₁ = listMaxD l₂ := by
  cases l₁ with
  | nil =>
    have : l₂ = [] := List.eq_nil_of_length_eq_zero (by rw [← h.length_eq]; rfl)
    rw [this]
  | cons x xs =>
    have hne1 : (x :: xs) ≠ ([] : List ℚ) := by simp
    have hne2 : l₂ ≠ [] := by
      intro h0
      rw [h0] at h
      have := h.length_eq
      simp at this
    apply le_antisymm
    · exact listMaxD_ge _ _ (h.mem_iff.mp (listMaxD_mem _ hne1))
    · exact listMaxD_ge _ _ (h.mem_iff.mpr (listMaxD_mem l₂ hne2))

lemma listMean_perm {l₁ l₂ : List ℚ} (h : l₁.Perm l₂) : listMean l₁ = listMean l₂ := by
  unfold listMean
  rw [h.sum_eq, h.length_eq]

lemma listVar_perm {l₁ l₂ : List ℚ} (h : l₁.Perm l₂) : listVar l₁ = listVar l₂ := by
  unfold listVar
  rw [h.length_eq, listMean_perm h, (h.map (fun x => (x - listMean l₂) ^ 2)).sum_eq]

/-- One output row of the aggregation: the group key, the decoded
normalized coordinates (the computable core of latitude/longitude, a
function of the quadkey), the mean/min/max(/variance) reductions of the
measurement columns, and the sums of the count columns. -/
structure AggRow where
  quadkey : String
  year : ℤ
  quarter : ℤ
  data_type : String
  x_norm : ℚ
  y_norm : ℚ
  avg_d_kbps_mean : ℚ
  avg_d_kbps_min : ℚ
  avg_d_kbps_max : ℚ
  avg_d_kbps_var : Option ℚ
  avg_u_kbps_mean : ℚ
  avg_u_kbps_min : ℚ
  avg_u_kbps_max : ℚ
  avg_u_kbps_var : Option ℚ
  avg_lat_ms_mean : ℚ
  avg_lat_ms_min : ℚ
  avg_lat_ms_max : ℚ
  tests_sum : ℕ
  devices_sum : ℕ
deriving DecidableEq

/-- The reductions of one group (`agg_dict` of `_aggregate_data`):
mean/min/max/std for the speed columns, mean/min/max for latency, sum for
the count columns. -/
def aggGroup (k : GroupKey) (g : List Row) : AggRow :=
  AggRow.mk k.quadkey k.year k.quarter k.data_type
    (normXY (specDigits k.quadkey)).1 (normXY (specDigits k.quadkey)).2
    (listMean (g.map (fun r => r.avg_d_kbps)))
    (listMinD (g.map (fun r => r.avg_d_kbps)))
    (listMaxD (g.map (fun r => r.avg_d_kbps)))
    (listVar (g.map (fun r => r.avg_d_kbps)))
    (listMean (g.map (fun r => r.avg_u_kbps)))
    (listMinD (g.map (fun r => r.avg_u_kbps)))
    (listMaxD (g.map (fun r => r.avg_u_kbps)))
    (listVar (g.map (fun r => r.avg_u_kbps)))
    (listMean (g.map (fun r => r.avg_lat_ms)))
    (listMinD (g.map (fun r => r.avg_lat_ms)))
    (listMaxD (g.map (fun r => r.avg_lat_ms)))
    ((g.map (fun r => r.tests)).sum)
    ((g.map (fun r => r.devices)).sum)

/-- The grouped frame: one row per distinct key, keys in ascending order
(pandas `groupby` default `sort=True`), each reduced over its fiber. -/
def groupRows (df : List Row) : List AggRow :=
  (((df.map rowKey).dedup).insertionSort keyLe).map
    (fun k => aggGroup k (df.filter (fun r => decide (rowKey r = k))))

/-- The failures `_aggregate_data` can produce.  `valueError` is the
`ValueError` from `int(...)` when some quadkey holds a non-digit character;
`zeroDivision` is the `ZeroDivisionError` raised by the compression-ratio
logging f-string `100*len(aggregated)/len(df)` when `len(df) == 0`.
Modelled from the spec: `emptyInput` stands for the `EmptyInputError` the
specification requires on zero records; no code path produces it (the
error class does not exist in the source). -/
inductive AggErr where
  | emptyInput : AggErr
  | zeroDivision : AggErr
  | valueError : AggErr
deriving DecidableEq

/-- Embedding of `TableauDataPreparer._aggregate_data`: decode quadkeys
(raising `ValueError` on any non-digit character), group and reduce, then
evaluate the logging f-string, whose division by `len(df)` raises
`ZeroDivisionError` on an empty input. -/
def aggregateData (df : List Row) : Except AggErr (List AggRow) :=
  if df.any (fun r => decide (¬∀ c ∈ r.quadkey.data, '0' ≤ c ∧ c ≤ '9')) then
    Except.error AggErr.valueError
  else if df.length = 0 then Except.error AggErr.zeroDivision
  else Except.ok (groupRows df)

/-- The produced aggregated rows, `[]` on a raised error. -/
def aggRowsOf (df : List Row) : List AggRow :=
  match aggregateData df with
  | Except.ok rows => rows
  | Except.error _ => []

lemma perm_any_eq {l₁ l₂ : List Row} (p : Row → Bool) (h : l₁.Perm l₂) :
    l₁.any p = l₂.any p := by
  have hiff : l₁.any p = true ↔ l₂.any p = true := by
    simp only [List.any_eq_true]
    constructor
    · rintro ⟨x, hx, hpx⟩; exact ⟨x, h.mem_iff.mp hx, hpx⟩
    · rintro ⟨x, hx, hpx⟩; exact ⟨x, h.mem_iff.mpr hx, hpx⟩
  cases b1 : l₁.any p <;> cases b2 : l₂.any p <;> simp_all

lemma aggGroup_perm (k : GroupKey) {g g' : List Row} (h : g.Perm g') :
    aggGroup k g = aggGroup k g' := by
  unfold aggGroup
  rw [listMean_perm (h.map (fun r => r.avg_d_kbps)),
    listMinD_perm (h.map (fun r => r.avg_d_kbps)),
    listMaxD_perm (h.map (fun r => r.avg_d_kbps)),
    listVar_perm (h.map (fun r => r.avg_d_kbps)),
    listMean_perm (h.map (fun r => r.avg_u_kbps)),
    listMinD_perm (h.map (fun r => r.avg_u_kbps)),
    listMaxD_perm (h.map (fun r => r.avg_u_kbps)),
    listVar_perm (h.map (fun r => r.avg_u_kbps)),
    listMean_perm (h.map (fun r => r.avg_lat_ms)),
    listMinD_perm (h.map (fun r => r.avg_lat_ms)),
    listMaxD_perm (h.map (fun r => r.avg_lat_ms)),
    (h.map (fun r => r.tests)).sum_eq,
    (h.map (fun r => r.devices)).sum_eq]

lemma groupRows_perm {df df' : List Row} (h : df.Perm df') :
    groupRows df = groupRows df' := by
  unfold groupRows
  have hkeys : ((df.map rowKey).dedup).insertionSort keyLe =
      ((df'.map rowKey).dedup).insertionSort keyLe := by
    refine List.eq_of_perm_of_sorted ?_ (List.sorted_insertionSort keyLe _)
      (List.sorted_insertionSort keyLe _)
    exact (List.perm_insertionSort keyLe _).trans
      (((h.map rowKey).dedup).trans (List.perm_insertionSort keyLe _).symm)
  rw [hkeys]
  refine List.map_congr_left (fun k hk => ?_)
  exact aggGroup_perm k (h.filter _)

/-- C7 counterexample: aggregation on zero records fails with the
`ZeroDivisionError` from the compression-ratio logging, not with an
`EmptyInputError`. -/
theorem aggregate_empty_zero_division :
    aggregateData [] = Except.error AggErr.zeroDivision ∧
      AggErr.zeroDivision ≠ AggErr.emptyInput :=
  ⟨rfl, by decide⟩

/-- C7 as amended: on zero records the aggregation fails, but incidentally —
with a `ZeroDivisionError` raised while formatting the compression-ratio log
message — and no input whatsoever produces an `EmptyInputError` (the error
class does not exist in the code). -/
theorem aggregate_empty_input_behavior :
    aggregateData [] = Except.error AggErr.zeroDivision ∧
      ∀ df, aggregateData df ≠ Except.error AggErr.emptyInput := by
  refine ⟨rfl, fun df => ?_⟩
  unfold aggregateData
  split_ifs <;> simp

/-- Sample rows used by the aggregation witnesses. -/
def w8r1 : Row := Row.mk "0" 10 5 20 3 2 2024 1 "mobile"

/-- A second sample row with a different group key. -/
def w8r2 : Row := Row.mk "1" 8 4 30 1 1 2024 1 "fixed"

/-- A third sample row sharing the group key of `w8r1`. -/
def w10r3 : Row := Row.mk "0" 6 3 10 4 5 2024 1 "mobile"

/-- Witness for the amended C7 on a concrete non-empty input. -/
theorem aggregate_empty_input_behavior_witness :
    aggregateData [w8r1] ≠ Except.error AggErr.emptyInput :=
  aggregate_empty_input_behavior.2 [w8r1]

/-- C8.  Aggregation is invariant under permutation of the input rows: the
two runs produce identical results (identical output row lists — pandas
sorts group keys — hence in particular equal row sets), and errors agree
too. -/
theorem aggregate_permutation_invariant :
    ∀ df df' : List Row, df.Perm df' → aggregateData df = aggregateData df' := by
  intro df df' h
  unfold aggregateData
  rw [perm_any_eq _ h, h.length_eq, groupRows_perm h]

/-- Witness for C8 on a concrete two-row input and its swap. -/
theorem aggregate_permutation_invariant_witness :
    aggregateData [w8r1, w8r2] = aggregateData [w8r2, w8r1] :=
  aggregate_permutation_invariant _ _ (List.Perm.swap w8r2 w8r1 [])

lemma sum_map_filter_split (l : List Row) (p : Row → Bool) (f : Row → ℕ) :
    (l.map f).sum = ((l.filter p).map f).sum + ((l.filter (fun r => !p r)).map f).sum := by
  induction l with
  | nil => rfl
  | cons r rest ih =>
    cases hp : p r <;> simp [List.filter_cons, hp, ih] <;> omega

lemma sum_fiber_partition :
    ∀ (keys : List GroupKey) (df : List Row) (f : Row → ℕ),
      keys.Nodup → (∀ r ∈ df, rowKey r ∈ keys) →
      (keys.map (fun k =>
        ((df.filter (fun r => decide (rowKey r = k))).map f).sum)).sum = (df.map f).sum := by
  intro keys
  induction keys with
  | nil =>
    intro df f _ hcover
    have hdf : df = [] := by
      cases df with
      | nil => rfl
      | cons r rest => exact absurd (hcover r (List.mem_cons_self r rest)) (List.not_mem_nil _)
    subst hdf
    rfl
  | cons k ks ih =>
    intro df f hnd hcover
    rcases List.nodup_cons.mp hnd with ⟨hknotin, hndks⟩
    have hsplit := sum_map_filter_split df (fun r => decide (rowKey r = k)) f
    have hfibers : ∀ k' ∈ ks,
        ((df.filter (fun r => !decide (rowKey r = k))).filter
            (fun r => decide (rowKey r = k'))).map f =
          (df.filter (fun r => decide (rowKey r = k'))).map f := by
      intro k' hk'
      rw [List.filter_filter]
      refine congrArg (List.map f) (List.filter_congr (fun r hr => ?_))
      by_cases hrk : rowKey r = k'
      · have hkk : ¬k' = k := fun he => hknotin (he ▸ hk')
        simp [hrk, hkk]
      · simp [hrk]
    have hcover2 : ∀ r ∈ df.filter (fun r => !decide (rowKey r = k)), rowKey r ∈ ks := by
      intro r hr
      rcases List.mem_filter.mp hr with ⟨hrdf, hnot⟩
      rcases List.mem_cons.mp (hcover r hrdf) with heq | hmem
      · exfalso
        simp [heq] at hnot
      · exact hmem
    have hih := ih (df.filter (fun r => !decide (rowKey r = k))) f hndks hcover2
    have hmapeq : (ks.map (fun k' =>
        (((df.filter (fun r => !decide (rowKey r = k))).filter
          (fun r => decide (rowKey r = k'))).map f).sum)) =
        ks.map (fun k' => ((df.filter (fun r => decide (rowKey r = k'))).map f).sum) :=
      List.map_congr_left (fun k' hk' => congrArg List.sum (hfibers k' hk'))
    rw [List.map_cons, List.sum_cons, ← hmapeq, hih, ← hsplit]

/-- C10.  Aggregation preserves the count totals: whenever it succeeds, the
sum of the output `tests_sum` column equals the sum of the input `tests`
column, and likewise for `devices_sum` and `devices`, because the groups
partition the input rows and the count columns are reduced by sum. -/
theorem aggregate_preserves_count_sums :
    ∀ df out, aggregateData df = Except.ok out →
      (out.map (fun r => r.tests_sum)).sum = (df.map (fun r => r.tests)).sum ∧
        (out.map (fun r => r.devices_sum)).sum = (df.map (fun r => r.devices)).sum := by
  intro df out h
  have hout : out = groupRows df := by
    unfold aggregateData at h
    split_ifs at h
    exact (Except.ok.inj h).symm
  subst hout
  have hnd : (((df.map rowKey).dedup).insertionSort keyLe).Nodup :=
    ((List.perm_insertionSort keyLe _).nodup_iff).mpr (List.nodup_dedup _)
  have hcover : ∀ r ∈ df, rowKey r ∈ ((df.map rowKey).dedup).insertionSort keyLe := by
    intro r hr
    rw [List.mem_insertionSort, List.mem_dedup]
    exact List.mem_map_of_mem rowKey hr
  constructor
  · unfold groupRows
    rw [List.map_map]
    have heq : ((((df.map rowKey).dedup).insertionSort keyLe).map
        ((fun r => r.tests_sum) ∘
          (fun k => aggGroup k (df.filter (fun r => decide (rowKey r = k)))))) =
        (((df.map rowKey).dedup).insertionSort keyLe).map
          (fun k => ((df.filter (fun r => decide (rowKey r = k))).map
            (fun r => r.tests)).sum) :=
      List.map_congr_left (fun k hk => rfl)
    rw [heq]
    exact sum_fiber_partition _ df _ hnd hcover
  · unfold groupRows
    rw [List.map_map]
    have heq : ((((df.map rowKey).dedup).insertionSort keyLe).map
        ((fun r => r.devices_sum) ∘
          (fun k => aggGroup k (df.filter (fun r => decide (rowKey r = k)))))) =
        (((df.map rowKey).dedup).insertionSort keyLe).map
          (fun k => ((df.filter (fun r => decide (rowKey r = k))).map
            (fun r => r.devices)).sum) :=
      List.map_congr_left (fun k hk => rfl)
    rw [heq]
    exact sum_fiber_partition _ df _ hnd hcover

/-- A concrete input with two rows in one group and one in another. -/
def w10Df : List Row := [w8r1, w10r3, w8r2]

/-- Witness for C10 on `w10Df`: total tests 3 + 4 + 1, devices 2 + 5 + 1. -/
theorem aggregate_preserves_count_sums_witness :
    ((aggRowsOf w10Df).map (fun r => r.tests_sum)).sum =
        (w10Df.map (fun r => r.tests)).sum ∧
      ((aggRowsOf w10Df).map (fun r => r.devices_sum)).sum =
        (w10Df.map (fun r => r.devices)).sum :=
  aggregate_preserves_count_sums w10Df (aggRowsOf w10Df) rfl

/-! ### Excel sheet splitting (`_create_excel_file`) -/

/-- `TABLEAU_CONFIG['excel_row_limit']` from `src/config.py`. -/
def excelRowLimit : ℕ := 900000

/-- `num_chunks = (len(df) - 1) // max_rows + 1` with Python floor
division (so an empty frame yields zero chunks). -/
def numChunks (n : ℕ) : ℕ :=
  (((n : ℤ) - 1).fdiv (excelRowLimit : ℤ) + 1).toNat

/-- The sheets the writer loop produces: chunk `i` holds the rows
`df.iloc[i*max_rows : min((i+1)*max_rows, len(df))]`, written to the sheet
named `f"{sheet_name}_{i+1}"` (just `sheet_name` when there is a single
chunk). -/
def excelSheets (sheetName : String) (df : List AggRow) : List (String × List AggRow) :=
  (List.range (numChunks df.length)).map (fun i =>
    (if 1 < numChunks df.length then sheetName ++ "_" ++ toString (i + 1) else sheetName,
     (df.drop (i * excelRowLimit)).take excelRowLimit))

lemma fdiv_ofNat (a b : ℕ) :
    (Int.ofNat a).fdiv (Int.ofNat b) = Int.ofNat (a / b) := by
  cases a with
  | zero => simp [Int.fdiv]
  | succ m => rfl

lemma numChunks_eq (n : ℕ) (h : 1 ≤ n) :
    numChunks n = (n - 1) / excelRowLimit + 1 := by
  unfold numChunks
  have h1 : (n : ℤ) - 1 = Int.ofNat (n - 1) := by
    rcases n with _ | m
    · omega
    · simp only [Int.ofNat_eq_coe]
      push_cast
      omega
  rw [h1]
  have h2 : (excelRowLimit : ℤ) = Int.ofNat excelRowLimit := rfl
  rw [h2, fdiv_ofNat]
  rfl

lemma le_numChunks_mul (n : ℕ) : n ≤ numChunks n * excelRowLimit := by
  rcases Nat.eq_zero_or_pos n with rfl | h
  · exact Nat.zero_le _
  · rw [numChunks_eq n h]
    have hm : 0 < excelRowLimit := by norm_num [excelRowLimit]
    have hd := Nat.div_add_mod (n - 1) excelRowLimit
    have hmod := Nat.mod_lt (n - 1) hm
    norm_num [excelRowLimit] at hd hmod ⊢
    omega

lemma two_le_numChunks (n : ℕ) (h : excelRowLimit < n) : 2 ≤ numChunks n := by
  have h1 : 1 ≤ n := by norm_num [excelRowLimit] at h; omega
  rw [numChunks_eq n h1]
  have hm : 0 < excelRowLimit := by norm_num [excelRowLimit]
  have : 1 ≤ (n - 1) / excelRowLimit :=
    (Nat.one_le_div_iff hm).mpr (by norm_num [excelRowLimit] at h ⊢; omega)
  omega

lemma chunks_flatten :
    ∀ (n : ℕ) (l : List AggRow), l.length ≤ n * excelRowLimit →
      ((List.range n).map
        (fun i => (l.drop (i * excelRowLimit)).take excelRowLimit)).flatten = l := by
  intro n
  induction n with
  | zero =>
    intro l hl
    have hl0 : l = [] := List.eq_nil_of_length_eq_zero (Nat.le_zero.mp (by simpa using hl))
    subst hl0
    rfl
  | succ n ih =>
    intro l hl
    rw [List.range_succ_eq_map]
    simp only [List.map_cons, List.map_map, List.flatten_cons, Nat.zero_mul,
      List.drop_zero]
    have hcomp : ((fun i => (l.drop (i * excelRowLimit)).take excelRowLimit) ∘ Nat.succ) =
        (fun i => ((l.drop excelRowLimit).drop (i * excelRowLimit)).take excelRowLimit) := by
      funext i
      simp only [Function.comp_apply]
      rw [List.drop_drop]
      have harith : Nat.succ i * excelRowLimit = excelRowLimit + i * excelRowLimit := by
        rw [Nat.succ_mul, Nat.add_comm]
      rw [harith]
    have hlen : (l.drop excelRowLimit).length ≤ n * excelRowLimit := by
      rw [List.length_drop, Nat.sub_le_iff_le_add]
      calc l.length ≤ (n + 1) * excelRowLimit := hl
        _ = n * excelRowLimit + excelRowLimit := by ring
    rw [hcomp, ih (l.drop excelRowLimit) hlen]
    exact List.take_append_drop excelRowLimit l

/-- C9.  When the aggregated table holds more rows than the configured
`excel_row_limit` (900000), the writer splits it into at least two sheets
whose row lists concatenate back to exactly the input — every row on exactly
one sheet, none duplicated or dropped — and every sheet holds at most
`excel_row_limit` rows. -/
theorem excel_split_partitions (df : List AggRow) (h : excelRowLimit < df.length) :
    ((excelSheets "Data" df).map Prod.snd).flatten = df ∧
      (∀ s ∈ excelSheets "Data" df, s.2.length ≤ excelRowLimit) ∧
      2 ≤ (excelSheets "Data" df).length := by
  refine ⟨?_, ?_, ?_⟩
  · unfold excelSheets
    rw [List.map_map]
    have hcomp : (Prod.snd ∘ (fun i =>
        ((if 1 < numChunks df.length then "Data" ++ "_" ++ toString (i + 1) else "Data"),
         (df.drop (i * excelRowLimit)).take excelRowLimit))) =
        (fun i => (df.drop (i * excelRowLimit)).take excelRowLimit) := rfl
    rw [hcomp]
    exact chunks_flatten _ df (le_numChunks_mul df.length)
  · intro s hs
    unfold excelSheets at hs
    rcases List.mem_map.mp hs with ⟨i, _, hi⟩
    rw [← hi]
    simp only
    rw [List.length_take]
    exact min_le_left _ _
  · unfold excelSheets
    rw [List.length_map, List.length_range]
    exact two_le_numChunks df.length h

/-- A sample aggregated row for the C9 witness. -/
def sampleAggRow : AggRow :=
  AggRow.mk "0" 2024 1 "mobile" 0 0 0 0 0 none 0 0 0 none 0 0 0 0 0

/-- Witness for C9 on a concrete 900001-row table. -/
theorem excel_split_partitions_witness :
    ((excelSheets "Data" (List.replicate 900001 sampleAggRow)).map Prod.snd).flatten =
        List.replicate 900001 sampleAggRow ∧
      (∀ s ∈ excelSheets "Data" (List.replicate 900001 sampleAggRow),
        s.2.length ≤ excelRowLimit) ∧
      2 ≤ (excelSheets "Data" (List.replicate 900001 sampleAggRow)).length :=
  excel_split_partitions (List.replicate 900001 sampleAggRow)
    (by rw [List.length_replicate]; norm_num [excelRowLimit])

end OoklaPrep
